import Mathlib

/-!
Verification of the mullvad-ping latency-probing pipeline (src/script.ts).

The script fetches a relay catalog, filters it by CLI criteria, pings each
selected relay concurrently with staggered start delays, parses the ping
summary line, sorts the successful measurements by average latency and
reports the top-N.  This file gives a shallow embedding of the pure core of
that pipeline — the filter predicate, the ping-output regex matcher, the
JS number parsing helpers, the stagger counter, the Promise.all aggregation
and the final report — and proves the specification claims against it.

Conventions: JS numbers carrying latencies are modelled as rationals
(nothing the program does with them is floating-point specific: it parses
short decimal literals and compares them), JS strings as Lean `String`
or `List Char`, `null`/`undefined`-able values as `Option`, and a promise
that may reject as `Except String`.
-/

/-- `Char.isDigit`, spelled out: the character class `\d` of the script's
regex (ASCII digits only, as in JavaScript without the `u`-flag classes). -/
def isDigitChar (c : Char) : Bool := '0' ≤ c && c ≤ '9'

/-- The unescaped `.` of the script's regex: JavaScript `.` without the `s`
flag matches every character except the four line terminators. -/
def jsDotOk (c : Char) : Bool :=
  !(c == '\n' || c == '\r' || c.toNat == 0x2028 || c.toNat == 0x2029)

/-- Numeric value of a digit string (used by the parseFloat/parseInt models). -/
def digitsVal (l : List Char) : ℕ :=
  l.foldl (fun acc c => 10 * acc + (c.toNat - '0'.toNat)) 0

/-- Exponent part of a JS float literal after the `e`/`E`: optional sign then
leading digits; a missing or malformed exponent contributes 0 (as
`parseFloat` ignores a trailing `e`/`e+`/`e-` without digits). -/
def expVal : List Char → Int
  | '+' :: t => (digitsVal (t.takeWhile isDigitChar) : Int)
  | '-' :: t => -(digitsVal (t.takeWhile isDigitChar) : Int)
  | t => (digitsVal (t.takeWhile isDigitChar) : Int)

/-- Model of JavaScript `parseFloat` on the strings the script feeds it:
regex capture groups, which always begin with a digit.  Parses the longest
prefix `digits [. digits] [e/E [sign] digits]` and returns its rational
value; returns `none` (for NaN) when the string does not start with a digit.
Leading whitespace, a leading sign and `Infinity` — which `parseFloat`
accepts but which no capture group of this program can start with — are not
modelled. -/
def jsParseFloat (s : List Char) : Option ℚ :=
  let D := s.takeWhile isDigitChar
  let r := s.dropWhile isDigitChar
  if D.isEmpty then none
  else
    let fr : List Char × List Char :=
      match r with
      | '.' :: t => (t.takeWhile isDigitChar, t.dropWhile isDigitChar)
      | _ => ([], r)
    let base : ℚ := (digitsVal D : ℚ) + (digitsVal fr.1 : ℚ) / (10 : ℚ) ^ fr.1.length
    let e : Int :=
      match fr.2 with
      | 'e' :: t => expVal t
      | 'E' :: t => expVal t
      | _ => 0
    some (base * (10 : ℚ) ^ e)

/-- `parseFloat(g) || 0` — the script's avg-field computation: the parsed
value, with NaN (and 0 itself) collapsed to 0. -/
def jsParseFloatOr0 (s : List Char) : ℚ :=
  match jsParseFloat s with
  | none => 0
  | some q => q

/-- Model of JavaScript `parseInt` with no radix argument on a string value:
skips leading whitespace, reads an optional sign and then a leading run of
decimal digits (the hex `0x` form never yields 0 and is irrelevant to the
claims; it is not modelled).  `none` is NaN. -/
def jsParseInt (s : String) : Option Int :=
  let t := s.toList.dropWhile (fun c => c == ' ' || c == '\t' || c == '\n' || c == '\r')
  let (sign, u) : Int × List Char :=
    match t with
    | '-' :: u => (-1, u)
    | '+' :: u => (1, u)
    | u => (1, u)
  let D := u.takeWhile isDigitChar
  if D.isEmpty then none else some (sign * (digitsVal D : Int))

/-- Model of `String.prototype.toLowerCase` (ASCII range; the script only
compares the result against ASCII country codes). -/
def jsToLower (s : String) : String := s.map Char.toLower

/-!  ## Data model (the two record types of script.ts)  -/

/-- `ServerDataJSON` — one relay record of the fetched catalog. -/
structure ServerDataJSON where
  hostname : String
  country_code : String
  country_name : String
  city_code : String
  city_name : String
  active : Bool
  owned : Bool
  provider : String
  ipv4_addr_in : String
  ipv6_addr_in : String
  network_port_speed : Int
  stboot : Bool
  type : String
deriving DecidableEq

/-- `ServerPingData` — one successful measurement. -/
structure ServerPingData where
  hostname : String
  city : String
  country : String
  type : String
  ip : String
  avg : ℚ
  network_port_speed : Int
deriving DecidableEq

/-!  ## Candidate filter  -/

/-- `checkRunMode` of script.ts, verbatim. -/
def checkRunMode (stboot : Bool) (runMode : String) : Bool :=
  if runMode == "all" then true
  else if runMode == "ram" && stboot == true then true
  else if runMode == "disk" && stboot == false then true
  else false

/-- The filter criteria: the script's globals `country`, `portSpeed`,
`runMode`, `provider`, `owned` as the filter predicate reads them.  The
predicate compares `country` and `provider` against `null`, so they are
`Option`s here (the program happens to always supply a country string —
claim C10 — but the predicate itself is null-tolerant). -/
structure Criteria where
  country : Option String
  portSpeed : Int
  runMode : String
  provider : Option String
  owned : Option Bool
deriving DecidableEq

/-- The conjunction in the script's top-level `for (const server of json)`
loop guard, in source order. -/
def filterPred (c : Criteria) (server : ServerDataJSON) : Bool :=
  (c.country == none || c.country == some server.country_code) &&
  decide (c.portSpeed ≤ server.network_port_speed) &&
  checkRunMode server.stboot c.runMode &&
  (c.provider == none || c.provider == some server.provider) &&
  (c.owned == none || c.owned == some server.owned)

/-- Candidate selection: the relays that pass the loop guard, in catalog
order (the loop walks `json` in order and pushes one probe per passing
relay). -/
def selectRelays (c : Criteria) (catalog : List ServerDataJSON) : List ServerDataJSON :=
  catalog.filter (filterPred c)

/-!  ## The ping-output regex

`parsePing` matches
`/(?<min>\d+(?:.\d+)?)\/(?<avg>\d+(?:.\d+)?)\/(?<max>\d+(?:.\d+)?)\/(?<mdev>\d+(?:.\d+)?)/`
against the raw output.  Note the dot inside `(?:.\d+)?` is NOT escaped: it
is the JS any-character class (minus line terminators), not a literal
decimal point.  The matcher below implements the backtracking search of a
JS regex engine for exactly this pattern, specialised to its shape: a
number-like token is `\d+` optionally followed by one dot-class character
and another `\d+`; four tokens are joined by literal slashes; the match is
the leftmost one, with greedy, backtrackable quantifiers.  The matcher is
parameterised by the dot class `dotOk` so that the same engine with
`dotOk := (· == '.')` expresses the strictly-decimal pattern the spec
describes.
-/

/-- All ways for `\d+` to consume a prefix of `s`, in the engine's
backtracking priority order: greedy, so longest first, down to one digit. -/
def digitChoices (s : List Char) : List (List Char × List Char) :=
  let m := (s.takeWhile isDigitChar).length
  (List.range m).map (fun i => (s.take (m - i), s.drop (m - i)))

/-- The optional-group variants: given the already-consumed digit run `g1`
and the remaining input, the ways the present optional group (one dot-class
character, then a greedy `\d+`) can extend it, in priority order. -/
def optPart (dotOk : Char → Bool) (g1 : List Char) : List Char → List (List Char × List Char)
  | c :: r => if dotOk c then (digitChoices r).map (fun q => (g1 ++ c :: q.1, q.2)) else []
  | [] => []

/-- All ways for one token `\d+(?:.\d+)?` to consume a prefix of `s`, in
backtracking priority order: for each `\d+` choice (longest first), first
the variants where the optional group is present, then the variant where it
is absent. -/
def candidatesN (dotOk : Char → Bool) (s : List Char) : List (List Char × List Char) :=
  (digitChoices s).flatMap (fun p => optPart dotOk p.1 p.2 ++ [p])

/-- First success of `f` over `l` — the backtracking combinator: candidates
are tried in priority order and the continuation may fail. -/
def firstSome : List α → (α → Option β) → Option β
  | [], _ => none
  | a :: l, f =>
    match f a with
    | some b => some b
    | none => firstSome l f

/-- Consume the literal `\/` of the pattern. -/
def afterSlash : List Char → Option (List Char)
  | '/' :: r => some r
  | _ => none

/-- The fourth token of the pattern: nothing follows it, so its greedy
highest-priority candidate wins outright. -/
def quadTail (dotOk : Char → Bool) (g1 g2 g3 : List Char) (rest : List Char) :
    Option (List Char × List Char × List Char × List Char) :=
  (candidatesN dotOk rest).head?.map (fun p4 => (g1, g2, g3, p4.1))

/-- Continuation after a third-token candidate: a literal slash, then the
fourth token. -/
def quadStep3 (dotOk : Char → Bool) (g1 g2 : List Char) (p3 : List Char × List Char) :
    Option (List Char × List Char × List Char × List Char) :=
  (afterSlash p3.2).bind (quadTail dotOk g1 g2 p3.1)

/-- Third token and everything after it. -/
def quadLevel3 (dotOk : Char → Bool) (g1 g2 : List Char) (rest : List Char) :
    Option (List Char × List Char × List Char × List Char) :=
  firstSome (candidatesN dotOk rest) (quadStep3 dotOk g1 g2)

/-- Continuation after a second-token candidate. -/
def quadStep2 (dotOk : Char → Bool) (g1 : List Char) (p2 : List Char × List Char) :
    Option (List Char × List Char × List Char × List Char) :=
  (afterSlash p2.2).bind (quadLevel3 dotOk g1 p2.1)

/-- Second token and everything after it. -/
def quadLevel2 (dotOk : Char → Bool) (g1 : List Char) (rest : List Char) :
    Option (List Char × List Char × List Char × List Char) :=
  firstSome (candidatesN dotOk rest) (quadStep2 dotOk g1)

/-- Continuation after a first-token candidate. -/
def quadStep1 (dotOk : Char → Bool) (p1 : List Char × List Char) :
    Option (List Char × List Char × List Char × List Char) :=
  (afterSlash p1.2).bind (quadLevel2 dotOk p1.1)

/-- Match the whole pattern at the head of `s`, returning the four capture
groups (min, avg, max, mdev) of the highest-priority parse, or `none`. -/
def matchQuad (dotOk : Char → Bool) (s : List Char) :
    Option (List Char × List Char × List Char × List Char) :=
  firstSome (candidatesN dotOk s) (quadStep1 dotOk)

/-- Leftmost match: try each start position left to right (a match always
starts with a digit, so the empty suffix never matches). -/
def searchFrom (dotOk : Char → Bool) :
    List Char → Option (List Char × List Char × List Char × List Char)
  | [] => none
  | c :: t =>
    match matchQuad dotOk (c :: t) with
    | some g => some g
    | none => searchFrom dotOk t

/-- `parsePing` of script.ts: match the regex against `output`; on a match
build a `ServerPingData` whose `avg` is `parseFloat(values[2]) || 0`
(`values[2]` is the `avg` capture group); on no match return null. -/
def parsePing (output : String) (server : ServerDataJSON) : Option ServerPingData :=
  match searchFrom jsDotOk output.toList with
  | none => none
  | some (_, avg, _, _) =>
    some { hostname := server.hostname
           city := server.city_name
           country := server.country_name
           type := server.type
           ip := server.ipv4_addr_in
           avg := jsParseFloatOr0 avg
           network_port_speed := server.network_port_speed }

/-- A number-like token of the matcher with dot class `dotOk`: a nonempty
digit run, optionally followed by one `dotOk` character and another
nonempty digit run.  With `dotOk := (· == '.')` this is exactly a
non-negative decimal numeral — the claims' notion of "decimal number". -/
def IsTok (dotOk : Char → Bool) (g : List Char) : Prop :=
  (g ≠ [] ∧ ∀ c ∈ g, isDigitChar c = true) ∨
  (∃ d c e, d ≠ [] ∧ (∀ x ∈ d, isDigitChar x = true) ∧ dotOk c = true ∧
    e ≠ [] ∧ (∀ x ∈ e, isDigitChar x = true) ∧ g = d ++ c :: e)

/-- The text contains a `/`-separated quadruple of `dotOk`-tokens: the
claims' "contains a segment matching min/avg/max/mdev". -/
def HasQuad (dotOk : Char → Bool) (s : List Char) : Prop :=
  ∃ pre a b c d post, IsTok dotOk a ∧ IsTok dotOk b ∧ IsTok dotOk c ∧ IsTok dotOk d ∧
    s = pre ++ a ++ '/' :: b ++ '/' :: c ++ '/' :: d ++ post

/-!  ## Ranker  -/

/-- The sort order used by `results.sort((a, b) => a.avg - b.avg)`. -/
def avgLe (a b : ServerPingData) : Prop := a.avg ≤ b.avg

instance : DecidableRel avgLe := fun a b => inferInstanceAs (Decidable (a.avg ≤ b.avg))

instance : IsTotal ServerPingData avgLe := ⟨fun a b => le_total a.avg b.avg⟩

instance : IsTrans ServerPingData avgLe := ⟨fun _ _ _ => le_trans⟩

/-- `results.sort((a, b) => a.avg - b.avg)`: ECMAScript `Array.prototype.sort`
is required to be stable, and a stable sort by a given comparator has a
unique result, so the sort is modelled by the (stable) insertion sort with
`a` kept before `b` whenever `a.avg - b.avg ≤ 0`. -/
def sortResults (l : List ServerPingData) : List ServerPingData :=
  List.insertionSort avgLe l

/-- `l.slice(0, e)` of JavaScript: a non-negative `e` is clamped to the
length, a negative `e` counts from the end. -/
def jsSliceTo (l : List α) (e : Int) : List α :=
  let n : Int := l.length
  let stop : Int := if e < 0 then max (n + e) 0 else min e n
  l.take stop.toNat

/-- The script's ranking step: sort ascending by `avg`, then
`topN == 0 ? results : results.slice(0, topN)`. -/
def rank (results : List ServerPingData) (topN : Int) : List ServerPingData :=
  let sorted := sortResults results
  if topN = 0 then sorted else jsSliceTo sorted topN

/-!  ## Probe continuation, Promise.all, pipeline  -/

/-- The continuation attached to each spawned ping: decode stderr, throw it
if non-empty (a non-empty string is truthy), otherwise hand stdout to
`parsePing`.  A thrown error is a rejected promise: `Except.error`. -/
def probeContinuation (stderr stdout : String) (server : ServerDataJSON) :
    Except String (Option ServerPingData) :=
  if stderr ≠ "" then .error stderr else .ok (parsePing stdout server)

/-- `Promise.all(pings)`: resolves with the list of values, in input order,
when every promise resolves; rejects as soon as any promise rejects.  The
model reports the first rejecting entry in list order (the engine reports
the first in settlement order; every theorem below uses only whether a
rejection exists, never which one). -/
def promiseAll : List (Except String α) → Except String (List α)
  | [] => .ok []
  | .error e :: _ => .error e
  | .ok a :: rest => (promiseAll rest).map (a :: ·)

/-- The echo-probe collaborator, per relay: the (stderr, stdout) pair its
invocation produces. -/
def runProbes (probeOf : ServerDataJSON → String × String)
    (selected : List ServerDataJSON) : Except String (List (Option ServerPingData)) :=
  promiseAll (selected.map (fun s => probeContinuation (probeOf s).1 (probeOf s).2 s))

/-- The terminal report: either the error-level "No servers found" line, or
the ranked list together with `top[0].hostname` (the one value printed at
info level for piping). -/
inductive ReportState where
  | noServers : ReportState
  | report : List ServerPingData → String → ReportState
deriving DecidableEq

/-- The whole pipeline after the catalog fetch: filter the catalog, run all
probes under `Promise.all`, drop the `null` parse results, sort, truncate,
and report; a rejected `Promise.all` propagates as an uncaught error. -/
def runPipeline (c : Criteria) (topN : Int) (catalog : List ServerDataJSON)
    (probeOf : ServerDataJSON → String × String) : Except String ReportState :=
  (runProbes probeOf (selectRelays c catalog)).map fun outs =>
    let results := outs.filterMap id
    match rank results topN with
    | [] => ReportState.noServers
    | t :: rest => ReportState.report (t :: rest) t.hostname

/-!  ## Stagger counter, top-N default, country default  -/

/-- The `sleep()` counter: `lastSleep += 10; thisSleep = lastSleep`.
`sleepDelaysFrom last n` is the list of delays handed to `setTimeout` by the
next `n` calls when the counter currently holds `last`. -/
def sleepDelaysFrom (last : ℕ) : ℕ → List ℕ
  | 0 => []
  | n + 1 => (last + 10) :: sleepDelaysFrom (last + 10) n

/-- The delays of the `n` probes of one invocation (counter starts at 0). -/
def sleepDelays (n : ℕ) : List ℕ := sleepDelaysFrom 0 n

/-- `const topN = parseInt(args.top ?? 5) || 5`: an absent flag becomes the
number 5 (which `parseInt` sees as the string "5"); NaN and 0 are falsy and
fall back to 5. -/
def topNOf (top : Option String) : Int :=
  match jsParseInt (top.getD "5") with
  | none => 5
  | some v => if v = 0 then 5 else v

/-- `const country = args.country?.toLowerCase() ?? "ch"`. -/
def countryArg (a : Option String) : String :=
  match a with
  | some s => jsToLower s
  | none => "ch"

/-!  ## Concrete relays, probe behaviours and measurements

Used by the witnesses and counterexamples below: two relays, a probe
behaviour `exF` under which relay "a" emits diagnostic text and relay "b"
succeeds with a normal ping summary, and a behaviour `exG` under which
every probe succeeds.
-/

/-- A concrete relay record ("a"). -/
def srvA : ServerDataJSON :=
  { hostname := "a", country_code := "ch", country_name := "Switzerland",
    city_code := "zrh", city_name := "Zurich", active := true, owned := true,
    provider := "p1", ipv4_addr_in := "10.0.0.1", ipv6_addr_in := "::1",
    network_port_speed := 10, stboot := true, type := "wireguard" }

/-- A concrete relay record ("b"). -/
def srvB : ServerDataJSON :=
  { hostname := "b", country_code := "ch", country_name := "Switzerland",
    city_code := "gva", city_name := "Geneva", active := true, owned := false,
    provider := "p2", ipv4_addr_in := "10.0.0.2", ipv6_addr_in := "::2",
    network_port_speed := 10, stboot := false, type := "wireguard" }

/-- Probe behaviour: relay "a" produces diagnostic output on stderr, every
other relay succeeds with a normal ping summary line. -/
def exF (s : ServerDataJSON) : String × String :=
  if s.hostname == "a" then ("ping: boom", "")
  else ("", "rtt min/avg/max/mdev = 1.2/3.4/5.6/0.1 ms")

/-- Probe behaviour: every probe succeeds with a normal ping summary line. -/
def exG (_ : ServerDataJSON) : String × String :=
  ("", "rtt min/avg/max/mdev = 1.2/3.4/5.6/0.1 ms")

/-- The measurement `parsePing` produces for relay "b" under `exF`/`exG`
(avg is the parse of the captured "3.4", i.e. 17/5). -/
def measB : ServerPingData :=
  { hostname := "b", city := "Geneva", country := "Switzerland",
    type := "wireguard", ip := "10.0.0.2", avg := jsParseFloatOr0 "3.4".toList,
    network_port_speed := 10 }

/-- The bogus measurement `parsePing` produces for relay "a" on the input
"1a1/2b2/3c3/4d4" (avg is the parse of the captured "2b2", i.e. 2). -/
def measBug : ServerPingData :=
  { hostname := "a", city := "Zurich", country := "Switzerland",
    type := "wireguard", ip := "10.0.0.1", avg := jsParseFloatOr0 "2b2".toList,
    network_port_speed := 10 }

/-- Criteria that match every relay. -/
def cAll : Criteria :=
  { country := none, portSpeed := 0, runMode := "all", provider := none, owned := none }

/-- The strictly-decimal dot class: what the spec's "decimal number" means
for the dot position (a literal decimal point). -/
def strictDot (c : Char) : Bool := c == '.'

/-- The criteria as the script actually builds them: the `country` global is
always a string (the lowered `--country` argument or the default "ch"), so
the criteria's country is always `some _`; the other fields are whatever
the remaining validated flags produced. -/
def programCriteria (a : Option String) (ps : Int) (rm : String)
    (prov : Option String) (ow : Option Bool) : Criteria :=
  { country := some (countryArg a), portSpeed := ps, runMode := rm,
    provider := prov, owned := ow }

theorem checkRunMode_eq_true (st : Bool) (m : String) :
    checkRunMode st m = true ↔
      (m = "all" ∨ m = "ram" ∧ st = true ∨ m = "disk" ∧ st = false) := by
  unfold checkRunMode
  by_cases h1 : m = "all" <;> by_cases h2 : m = "ram" <;> by_cases h3 : m = "disk" <;>
    by_cases h4 : st = true <;>
    simp_all [beq_iff_eq]

theorem filterPred_eq_true (c : Criteria) (r : ServerDataJSON) :
    filterPred c r = true ↔
      ((c.country = none ∨ c.country = some r.country_code) ∧
        c.portSpeed ≤ r.network_port_speed ∧
        (c.runMode = "all" ∨ c.runMode = "ram" ∧ r.stboot = true ∨
          c.runMode = "disk" ∧ r.stboot = false) ∧
        (c.provider = none ∨ c.provider = some r.provider) ∧
        (c.owned = none ∨ c.owned = some r.owned)) := by
  unfold filterPred
  simp [Bool.and_eq_true, Bool.or_eq_true, beq_iff_eq, checkRunMode_eq_true,
    and_assoc]

/-- **C2.** For every catalog and criteria set, the candidate filter returns
a subsequence of the catalog (hence preserves catalog order) containing
exactly the relays that satisfy all five criteria: country unset or equal,
port speed at least the minimum, the run-mode rule (`all` always, `ram`
iff the volatile-boot flag is set, `disk` iff it is clear), provider unset
or exactly equal, and owned unset or exactly equal. -/
theorem selectRelays_spec (c : Criteria) (catalog : List ServerDataJSON) :
    (selectRelays c catalog).Sublist catalog ∧
    ∀ r : ServerDataJSON, r ∈ selectRelays c catalog ↔
      (r ∈ catalog ∧
        (c.country = none ∨ c.country = some r.country_code) ∧
        c.portSpeed ≤ r.network_port_speed ∧
        (c.runMode = "all" ∨ c.runMode = "ram" ∧ r.stboot = true ∨
          c.runMode = "disk" ∧ r.stboot = false) ∧
        (c.provider = none ∨ c.provider = some r.provider) ∧
        (c.owned = none ∨ c.owned = some r.owned)) := by
  refine ⟨List.filter_sublist _, fun r => ?_⟩
  rw [selectRelays, List.mem_filter, filterPred_eq_true]


/-!  ## Promise.all and probe lemmas  -/

theorem promiseAll_ok_length {α : Type} :
    ∀ (l : List (Except String α)) (outs : List α),
      promiseAll l = .ok outs → outs.length = l.length := by
  intro l
  induction l with
  | nil => intro outs h; cases h; rfl
  | cons x rest ih =>
    intro outs h
    cases x with
    | error e => cases h
    | ok a =>
      rw [promiseAll] at h
      cases hr : promiseAll rest with
      | error e => rw [hr] at h; cases h
      | ok os =>
        rw [hr] at h
        cases h
        simp [ih os hr]

theorem promiseAll_ok_mem {α : Type} :
    ∀ (l : List (Except String α)) (outs : List α),
      promiseAll l = .ok outs → ∀ o ∈ outs, Except.ok o ∈ l := by
  intro l
  induction l with
  | nil => intro outs h o ho; cases h; cases ho
  | cons x rest ih =>
    intro outs h o ho
    cases x with
    | error e => cases h
    | ok a =>
      rw [promiseAll] at h
      cases hr : promiseAll rest with
      | error e => rw [hr] at h; cases h
      | ok os =>
        rw [hr] at h
        cases h
        rcases List.mem_cons.mp ho with rfl | hmem
        · exact List.mem_cons_self _ _
        · exact List.mem_cons_of_mem _ (ih os hr o hmem)

theorem runProbes_all_settled (f : ServerDataJSON → String × String) :
    ∀ sel : List ServerDataJSON, (∀ s ∈ sel, (f s).1 = "") →
      runProbes f sel = .ok (sel.map (fun s => parsePing (f s).2 s)) := by
  intro sel
  induction sel with
  | nil => intro _; rfl
  | cons s rest ih =>
    intro h
    have hs : (f s).1 = "" := h s (List.mem_cons_self _ _)
    have hcont : probeContinuation (f s).1 (f s).2 s = .ok (parsePing (f s).2 s) := by
      rw [probeContinuation, if_neg]
      simp [hs]
    rw [runProbes, List.map_cons, promiseAll.eq_def]
    simp only [hcont]
    have := ih (fun x hx => h x (List.mem_cons_of_mem _ hx))
    rw [runProbes] at this
    rw [this]
    rfl

theorem runProbes_rejects (f : ServerDataJSON → String × String) :
    ∀ (sel : List ServerDataJSON) (s : ServerDataJSON), s ∈ sel → (f s).1 ≠ "" →
      ∃ e, runProbes f sel = .error e := by
  intro sel
  induction sel with
  | nil => intro s hs; cases hs
  | cons s0 rest ih =>
    intro s hs hf
    by_cases h0 : (f s0).1 = ""
    · have hcont : probeContinuation (f s0).1 (f s0).2 s0 = .ok (parsePing (f s0).2 s0) := by
        rw [probeContinuation, if_neg]
        simp [h0]
      have hmem : s ∈ rest := by
        rcases List.mem_cons.mp hs with rfl | hmem
        · exact absurd h0 hf
        · exact hmem
      obtain ⟨e, he⟩ := ih s hmem hf
      refine ⟨e, ?_⟩
      rw [runProbes, List.map_cons, promiseAll.eq_def]
      simp only [hcont]
      rw [runProbes] at he
      rw [he]
      rfl
    · have hcont : probeContinuation (f s0).1 (f s0).2 s0 = .error (f s0).1 := by
        rw [probeContinuation, if_pos h0]
      refine ⟨(f s0).1, ?_⟩
      rw [runProbes, List.map_cons, promiseAll.eq_def]
      simp only [hcont]

/-!  ## parseFloat value and sign lemmas  -/

theorem jsParseFloat_nonneg (s : List Char) (q : ℚ) (h : jsParseFloat s = some q) :
    0 ≤ q := by
  rw [jsParseFloat] at h
  by_cases hD : (s.takeWhile isDigitChar).isEmpty = true
  · rw [if_pos hD] at h
    cases h
  · rw [if_neg hD] at h
    rw [Option.some.injEq] at h
    subst h
    positivity

theorem jsParseFloatOr0_nonneg (s : List Char) : 0 ≤ jsParseFloatOr0 s := by
  rw [jsParseFloatOr0]
  cases h : jsParseFloat s with
  | none => exact le_refl 0
  | some q => exact jsParseFloat_nonneg s q h

theorem parsePing_avg_nonneg (out : String) (srv : ServerDataJSON)
    (m : ServerPingData) (h : parsePing out srv = some m) : 0 ≤ m.avg := by
  rw [parsePing] at h
  cases hg : searchFrom jsDotOk out.toList with
  | none => rw [hg] at h; cases h
  | some g =>
    rw [hg] at h
    obtain ⟨g1, g2, g3, g4⟩ := g
    rw [Option.some.injEq] at h
    subst h
    exact jsParseFloatOr0_nonneg g2

theorem jsParseFloatOr0_34 : jsParseFloatOr0 "3.4".toList = 17 / 5 := by
  have h : jsParseFloatOr0 "3.4".toList
      = ((digitsVal ['3'] : ℚ) + (digitsVal ['4'] : ℚ) / 10 ^ (['4'] : List Char).length)
          * 10 ^ (0 : Int) := rfl
  have h3 : digitsVal ['3'] = 3 := rfl
  have h4 : digitsVal ['4'] = 4 := rfl
  rw [h, h3, h4]
  norm_num

theorem jsParseFloatOr0_2b2 : jsParseFloatOr0 "2b2".toList = 2 := by
  have h : jsParseFloatOr0 "2b2".toList
      = ((digitsVal ['2'] : ℚ) + (digitsVal [] : ℚ) / 10 ^ ([] : List Char).length)
          * 10 ^ (0 : Int) := rfl
  have h2 : digitsVal ['2'] = 2 := rfl
  have h0 : digitsVal [] = 0 := rfl
  rw [h, h2, h0]
  norm_num

/-!  ## Ranker lemmas  -/

theorem mem_sortResults {m : ServerPingData} {l : List ServerPingData} :
    m ∈ sortResults l ↔ m ∈ l :=
  List.mem_insertionSort avgLe

theorem sortResults_perm (l : List ServerPingData) : List.Perm (sortResults l) l :=
  List.perm_insertionSort avgLe l

theorem sortResults_sorted (l : List ServerPingData) :
    List.Sorted avgLe (sortResults l) :=
  List.sorted_insertionSort avgLe l

theorem filter_avg_orderedInsert (q : ℚ) (a : ServerPingData) :
    ∀ l : List ServerPingData,
      (List.orderedInsert avgLe a l).filter (fun m => decide (m.avg = q))
        = if a.avg = q
            then a :: l.filter (fun m => decide (m.avg = q))
            else l.filter (fun m => decide (m.avg = q)) := by
  intro l
  induction l with
  | nil =>
    by_cases hq : a.avg = q <;>
      simp [List.orderedInsert, List.filter, hq]
  | cons b l ih =>
    by_cases hab : avgLe a b
    · have hins : List.orderedInsert avgLe a (b :: l) = a :: b :: l := by
        simp [List.orderedInsert, hab]
      rw [hins]
      by_cases hq : a.avg = q <;> simp [List.filter, hq]
    · have hba : b.avg < a.avg := lt_of_not_le hab
      have : List.orderedInsert avgLe a (b :: l) = b :: List.orderedInsert avgLe a l := by
        simp [List.orderedInsert, hab]
      rw [this]
      by_cases hq : a.avg = q
      · have hbq : ¬ b.avg = q := by
          intro hbq
          rw [hbq, ← hq] at hba
          exact absurd hba (lt_irrefl _)
        simp [List.filter, hbq, ih, hq]
      · by_cases hbq : b.avg = q <;> simp [List.filter, hbq, ih, hq]

theorem filter_avg_sortResults (q : ℚ) :
    ∀ l : List ServerPingData,
      (sortResults l).filter (fun m => decide (m.avg = q))
        = l.filter (fun m => decide (m.avg = q)) := by
  intro l
  induction l with
  | nil => rfl
  | cons a l ih =>
    have : sortResults (a :: l) = List.orderedInsert avgLe a (sortResults l) := rfl
    rw [this, filter_avg_orderedInsert]
    by_cases hq : a.avg = q <;> simp [List.filter, hq, ih]

theorem jsSliceTo_coe {α : Type} (l : List α) (n : ℕ) :
    jsSliceTo l (n : Int) = l.take n := by
  rw [jsSliceTo]
  have hneg : ¬ ((n : Int) < 0) := by omega
  simp only [if_neg hneg]
  have hmin : (min (n : Int) (l.length : Int)).toNat = min n l.length := by
    rw [← Nat.cast_min]
    exact Int.toNat_natCast _
  rw [hmin]
  rcases le_total n l.length with h | h
  · rw [min_eq_left h]
  · rw [min_eq_right h, List.take_length, List.take_of_length_le h]

theorem rank_zero (l : List ServerPingData) : rank l 0 = sortResults l := by
  rw [rank]
  simp

theorem rank_coe (l : List ServerPingData) (n : ℕ) (hn : n ≠ 0) :
    rank l (n : Int) = (sortResults l).take n := by
  rw [rank]
  have hnz : ¬ ((n : Int) = 0) := by omega
  rw [if_neg hnz, jsSliceTo_coe]

theorem mem_rank {m : ServerPingData} {l : List ServerPingData} {t : Int} :
    m ∈ rank l t → m ∈ l := by
  intro h
  rw [rank] at h
  by_cases ht : t = 0
  · rw [if_pos ht] at h
    exact mem_sortResults.mp h
  · rw [if_neg ht] at h
    rw [jsSliceTo] at h
    exact mem_sortResults.mp (List.take_subset _ _ h)

theorem rank_length (l : List ServerPingData) (n : ℕ) :
    (rank l (n : Int)).length = if n = 0 then l.length else min n l.length := by
  by_cases hn : n = 0
  · subst hn
    simp only [Nat.cast_zero, rank_zero, if_pos rfl]
    exact (sortResults_perm l).length_eq
  · rw [rank_coe l n hn, if_neg hn, List.length_take, (sortResults_perm l).length_eq]

/-!  ## Completeness of the matcher

If a text contains a `/`-separated quadruple of tokens (`HasQuad`), the
backtracking search succeeds on it.  This links the operational matcher to
the declarative `HasQuad`, and in contrapositive form certifies concrete
"no match anywhere" facts.
-/

theorem takeWhile_length_of_append (p : Char → Bool) :
    ∀ (D r : List Char), (∀ c ∈ D, p c = true) →
      D.length ≤ ((D ++ r).takeWhile p).length := by
  intro D
  induction D with
  | nil => intro r _; simp
  | cons d D ih =>
    intro r h
    have hd : p d = true := h d (List.mem_cons_self _ _)
    rw [List.cons_append, List.takeWhile_cons_of_pos hd]
    simpa using ih r (fun c hc => h c (List.mem_cons_of_mem _ hc))

theorem digitChoices_mem (D r : List Char) (hne : D ≠ [])
    (hd : ∀ c ∈ D, isDigitChar c = true) : (D, r) ∈ digitChoices (D ++ r) := by
  rw [digitChoices]
  have hle : D.length ≤ (((D ++ r)).takeWhile isDigitChar).length :=
    takeWhile_length_of_append isDigitChar D r hd
  have hpos : 0 < D.length := List.length_pos.mpr hne
  refine List.mem_map.mpr
    ⟨((D ++ r).takeWhile isDigitChar).length - D.length, List.mem_range.mpr (by omega), ?_⟩
  have h1 : ((D ++ r).takeWhile isDigitChar).length
      - (((D ++ r).takeWhile isDigitChar).length - D.length) = D.length := by omega
  rw [h1, List.take_left, List.drop_left]

theorem candidatesN_mem (dotOk : Char → Bool) (g r : List Char) (hg : IsTok dotOk g) :
    (g, r) ∈ candidatesN dotOk (g ++ r) := by
  rw [candidatesN]
  rcases hg with ⟨hne, hdig⟩ | ⟨d, c, e, hdne, hddig, hdot, hene, hedig, hge⟩
  · exact List.mem_flatMap.mpr
      ⟨(g, r), digitChoices_mem g r hne hdig,
        List.mem_append_right _ (List.mem_singleton.mpr rfl)⟩
  · subst hge
    have hassoc : (d ++ c :: e) ++ r = d ++ (c :: (e ++ r)) := by
      simp [List.append_assoc]
    rw [hassoc]
    refine List.mem_flatMap.mpr
      ⟨(d, c :: (e ++ r)), digitChoices_mem d (c :: (e ++ r)) hdne hddig, ?_⟩
    refine List.mem_append_left _ ?_
    rw [optPart, if_pos hdot]
    exact List.mem_map.mpr ⟨(e, r), digitChoices_mem e r hene hedig, rfl⟩

theorem firstSome_ne_none {α β : Type} (f : α → Option β) :
    ∀ (l : List α) (a : α), a ∈ l → f a ≠ none → firstSome l f ≠ none := by
  intro l
  induction l with
  | nil => intro a ha; cases ha
  | cons b l ih =>
    intro a ha hf
    have hstep : firstSome (b :: l) f
        = match f b with | some v => some v | none => firstSome l f := rfl
    rw [hstep]
    cases hb : f b with
    | some v => simp
    | none =>
      rcases List.mem_cons.mp ha with rfl | hmem
      · exact absurd hb hf
      · simpa using ih a hmem hf

theorem quadTail_ne_none (dotOk : Char → Bool) (g1 g2 g3 d post : List Char)
    (hd : IsTok dotOk d) : quadTail dotOk g1 g2 g3 (d ++ post) ≠ none := by
  rw [quadTail]
  intro hcontra
  rw [Option.map_eq_none'] at hcontra
  rw [List.head?_eq_none_iff] at hcontra
  exact List.ne_nil_of_mem (candidatesN_mem dotOk d post hd) hcontra

theorem quadLevel3_ne_none (dotOk : Char → Bool) (g1 g2 c d post : List Char)
    (hc : IsTok dotOk c) (hd : IsTok dotOk d) :
    quadLevel3 dotOk g1 g2 (c ++ '/' :: (d ++ post)) ≠ none := by
  rw [quadLevel3]
  refine firstSome_ne_none _ _ (c, '/' :: (d ++ post))
    (candidatesN_mem dotOk c ('/' :: (d ++ post)) hc) ?_
  have hstep : quadStep3 dotOk g1 g2 (c, '/' :: (d ++ post))
      = quadTail dotOk g1 g2 c (d ++ post) := rfl
  rw [hstep]
  exact quadTail_ne_none dotOk g1 g2 c d post hd

theorem quadLevel2_ne_none (dotOk : Char → Bool) (g1 b c d post : List Char)
    (hb : IsTok dotOk b) (hc : IsTok dotOk c) (hd : IsTok dotOk d) :
    quadLevel2 dotOk g1 (b ++ '/' :: (c ++ '/' :: (d ++ post))) ≠ none := by
  rw [quadLevel2]
  refine firstSome_ne_none _ _ (b, '/' :: (c ++ '/' :: (d ++ post)))
    (candidatesN_mem dotOk b ('/' :: (c ++ '/' :: (d ++ post))) hb) ?_
  have hstep : quadStep2 dotOk g1 (b, '/' :: (c ++ '/' :: (d ++ post)))
      = quadLevel3 dotOk g1 b (c ++ '/' :: (d ++ post)) := rfl
  rw [hstep]
  exact quadLevel3_ne_none dotOk g1 b c d post hc hd

theorem matchQuad_ne_none (dotOk : Char → Bool) (a b c d post : List Char)
    (ha : IsTok dotOk a) (hb : IsTok dotOk b) (hc : IsTok dotOk c) (hd : IsTok dotOk d) :
    matchQuad dotOk (a ++ '/' :: (b ++ '/' :: (c ++ '/' :: (d ++ post)))) ≠ none := by
  rw [matchQuad]
  refine firstSome_ne_none _ _ (a, '/' :: (b ++ '/' :: (c ++ '/' :: (d ++ post))))
    (candidatesN_mem dotOk a ('/' :: (b ++ '/' :: (c ++ '/' :: (d ++ post)))) ha) ?_
  have hstep : quadStep1 dotOk (a, '/' :: (b ++ '/' :: (c ++ '/' :: (d ++ post))))
      = quadLevel2 dotOk a (b ++ '/' :: (c ++ '/' :: (d ++ post))) := rfl
  rw [hstep]
  exact quadLevel2_ne_none dotOk a b c d post hb hc hd

theorem searchFrom_ne_none (dotOk : Char → Bool) :
    ∀ (pre rest : List Char), matchQuad dotOk rest ≠ none →
      searchFrom dotOk (pre ++ rest) ≠ none := by
  intro pre
  induction pre with
  | nil =>
    intro rest hm
    cases rest with
    | nil => exact absurd rfl hm
    | cons c t =>
      have hstep : searchFrom dotOk (([] : List Char) ++ c :: t)
          = match matchQuad dotOk (c :: t) with
            | some g => some g
            | none => searchFrom dotOk t := rfl
      rw [hstep]
      cases hq : matchQuad dotOk (c :: t) with
      | some g => simp
      | none => exact absurd hq hm
  | cons p pre ih =>
    intro rest hm
    have hstep : searchFrom dotOk ((p :: pre) ++ rest)
        = match matchQuad dotOk (p :: (pre ++ rest)) with
          | some g => some g
          | none => searchFrom dotOk (pre ++ rest) := rfl
    rw [hstep]
    cases hq : matchQuad dotOk (p :: (pre ++ rest)) with
    | some g => simp
    | none => simpa using ih rest hm

theorem hasQuad_searchFrom (dotOk : Char → Bool) (s : List Char) (h : HasQuad dotOk s) :
    searchFrom dotOk s ≠ none := by
  obtain ⟨pre, a, b, c, d, post, ha, hb, hc, hd, hs⟩ := h
  have hs2 : s = pre ++ (a ++ '/' :: (b ++ '/' :: (c ++ '/' :: (d ++ post)))) := by
    rw [hs]
    simp [List.append_assoc]
  rw [hs2]
  exact searchFrom_ne_none dotOk pre _ (matchQuad_ne_none dotOk a b c d post ha hb hc hd)

/-!  ## Stagger counter lemmas  -/

theorem sleepDelaysFrom_eq :
    ∀ (n last : ℕ),
      sleepDelaysFrom last n = (List.range n).map (fun i => last + (i + 1) * 10) := by
  intro n
  induction n with
  | zero => intro last; rfl
  | succ n ih =>
    intro last
    rw [sleepDelaysFrom, ih (last + 10), List.range_succ_eq_map, List.map_cons,
      List.map_map]
    have hf : ((fun i => last + (i + 1) * 10) ∘ Nat.succ)
        = (fun i => last + 10 + (i + 1) * 10) := by
      funext i
      simp [Function.comp]
      omega
    rw [hf]

theorem rank_nil (t : Int) : rank [] t = [] := by
  rw [rank]
  by_cases h : t = 0
  · rw [if_pos h]; rfl
  · rw [if_neg h, jsSliceTo]
    simp [sortResults]

/-!  ## Claim theorems  -/

/-- **C8.** The Nth call to `sleep()` (probes numbered from 1) schedules a
delay of exactly N × 10 time units: the shared mutable `lastSleep` counter
is equivalent to the pure per-task formula `offset = index × step` with the
fixed step 10; the delays are strictly increasing and unbounded. -/
theorem stagger_delays_spec :
    (∀ n : ℕ, sleepDelays n = (List.range n).map (fun i => (i + 1) * 10)) ∧
    (∀ n : ℕ, List.Pairwise (fun x y => x < y) (sleepDelays n)) ∧
    (∀ B : ℕ, ∃ n : ℕ, ∃ k ∈ sleepDelays n, B < k) := by
  have heq : ∀ n : ℕ, sleepDelays n = (List.range n).map (fun i => (i + 1) * 10) := by
    intro n
    rw [sleepDelays, sleepDelaysFrom_eq]
    simp
  refine ⟨heq, ?_, ?_⟩
  · intro n
    rw [heq]
    refine List.Pairwise.map _ ?_ (List.pairwise_lt_range n)
    intro a b hab
    omega
  · intro B
    refine ⟨B + 1, (B + 1) * 10, ?_, by omega⟩
    rw [heq]
    exact List.mem_map.mpr ⟨B, List.mem_range.mpr (by omega), rfl⟩

/-- **C9.** `--top 0` does not select the ranker's return-all branch: the
parsed 0 is falsy, so the default of 5 reapplies; indeed no command-line
value at all can make `topN` equal 0, so `rank`'s `topN == 0` branch is
unreachable from the command line. -/
theorem topN_zero_unreachable :
    topNOf (some "0") = 5 ∧ ∀ a : Option String, topNOf a < 0 ∨ 0 < topNOf a := by
  constructor
  · rfl
  · intro a
    rcases h : jsParseInt (a.getD "5") with _ | v
    · have h5 : topNOf a = 5 := by rw [topNOf, h]
      rw [h5]
      right
      norm_num
    · by_cases hv : v = 0
      · have h5 : topNOf a = 5 := by
          rw [topNOf, h]
          show (if v = 0 then 5 else v) = 5
          rw [if_pos hv]
        rw [h5]
        right
        norm_num
      · have h5 : topNOf a = v := by
          rw [topNOf, h]
          show (if v = 0 then 5 else v) = v
          rw [if_neg hv]
        rw [h5]
        rcases lt_trichotomy v 0 with h1 | h1 | h1
        · exact Or.inl h1
        · exact absurd h1 hv
        · exact Or.inr h1

/-- **C10.** With no `--country` argument the country criterion is the fixed
string "ch", never null: the criteria the script builds always carry
`some _` as country, so the filter's country-unset branch is not taken on a
default invocation, and under the default criteria only relays whose
country code is "ch" are selected. -/
theorem country_default_spec :
    countryArg none = "ch" ∧
    (∀ (a : Option String) (ps : Int) (rm : String) (prov : Option String)
        (ow : Option Bool),
      (programCriteria a ps rm prov ow).country = some (countryArg a) ∧
      (programCriteria a ps rm prov ow).country.isSome = true) ∧
    (∀ (catalog : List ServerDataJSON) (c : Criteria) (r : ServerDataJSON),
      c.country = some "ch" → r ∈ selectRelays c catalog → r.country_code = "ch") := by
  refine ⟨rfl, fun a ps rm prov ow => ⟨rfl, rfl⟩, ?_⟩
  intro catalog c r hc hr
  have h := (List.mem_filter.mp hr).2
  rw [filterPred_eq_true] at h
  rcases h.1 with h1 | h1
  · rw [hc] at h1
    cases h1
  · rw [hc] at h1
    injection h1 with h2
    exact h2.symm

/-- Witness for C10: the default-invocation criteria select relay `srvA`,
whose country code is indeed "ch". -/
theorem country_default_spec_witness : srvA.country_code = "ch" := by
  have hmem : srvA ∈ selectRelays (programCriteria none 0 "all" none none) [srvA] := by
    have h : selectRelays (programCriteria none 0 "all" none none) [srvA] = [srvA] := rfl
    rw [h]
    exact List.mem_singleton.mpr rfl
  exact country_default_spec.2.2 [srvA] (programCriteria none 0 "all" none none) srvA rfl hmem

/-- **C3.** The claim describes the regex as matching four `/`-separated
decimal numbers, but the dot in `(?:.\d+)?` is unescaped, so it matches any
non-line-terminator character.  On the input "1a1/2b2/3c3/4d4" — which
contains no `/`-separated quadruple of decimal numbers (`HasQuad strictDot`
is false) — `parsePing` nevertheless returns a Measurement, with
avg = parseFloat("2b2") = 2, instead of the null the claim (and the
intent evidenced by the `min/avg/max/mdev` group names and comment)
requires.  (On genuinely decimal statistics, such as a real ping summary
line, the code does behave as the claim describes: avg = 3.4 for the
embedded "1.2/3.4/5.6/0.1".) -/
theorem parsePing_unescaped_dot_bug :
    parsePing "1a1/2b2/3c3/4d4" srvA = some measBug ∧
    measBug.avg = 2 ∧
    ¬ HasQuad strictDot "1a1/2b2/3c3/4d4".toList ∧
    parsePing "rtt min/avg/max/mdev = 1.2/3.4/5.6/0.1 ms" srvB = some measB ∧
    measB.avg = 17 / 5 := by
  refine ⟨rfl, jsParseFloatOr0_2b2, ?_, rfl, jsParseFloatOr0_34⟩
  intro h
  exact hasQuad_searchFrom strictDot _ h rfl

/-- **C4.** The ranker sorts ascending by average latency with ties broken
by input order — `rank l 0` is a permutation of `l`, sorted by `avgLe`, and
for every latency value the sub-sequence of measurements carrying it keeps
its input order — and `topN = 0` returns the whole sorted sequence while a
positive `topN` returns its first `topN` elements (fewer when the input is
shorter). -/
theorem rank_spec (l : List ServerPingData) (n : ℕ) :
    List.Perm (rank l 0) l ∧
    List.Sorted avgLe (rank l 0) ∧
    (∀ q : ℚ, (rank l 0).filter (fun m => decide (m.avg = q))
      = l.filter (fun m => decide (m.avg = q))) ∧
    rank l (n : Int) = (if n = 0 then rank l 0 else (rank l 0).take n) ∧
    (rank l (n : Int)).length = (if n = 0 then l.length else min n l.length) := by
  refine ⟨?_, ?_, ?_, ?_, rank_length l n⟩
  · rw [rank_zero]
    exact sortResults_perm l
  · rw [rank_zero]
    exact sortResults_sorted l
  · intro q
    rw [rank_zero]
    exact filter_avg_sortResults q l
  · by_cases hn : n = 0
    · subst hn
      simp
    · rw [if_neg hn, rank_zero, rank_coe l n hn]

/-- **C7.** A probe's outcome is a rejection carrying the diagnostic text
exactly when the stderr stream is non-empty — regardless of stdout — and
only with empty stderr is stdout handed to `parsePing`. -/
theorem probe_failure_iff_stderr (stderr stdout : String) (srv : ServerDataJSON) :
    ((∃ e, probeContinuation stderr stdout srv = Except.error e) ↔ stderr ≠ "") ∧
    (stderr ≠ "" → probeContinuation stderr stdout srv = Except.error stderr) ∧
    (stderr = "" → probeContinuation stderr stdout srv = Except.ok (parsePing stdout srv)) := by
  refine ⟨⟨?_, ?_⟩, ?_, ?_⟩
  · rintro ⟨e, he⟩ h0
    rw [probeContinuation, if_neg (not_not_intro h0)] at he
    exact Except.noConfusion he
  · intro h
    exact ⟨stderr, by rw [probeContinuation, if_pos h]⟩
  · intro h
    rw [probeContinuation, if_pos h]
  · intro h
    rw [probeContinuation, if_neg (not_not_intro h)]

/-- Witness for C7: under the failing behaviour the probe for relay "a"
rejects with its stderr text; with empty stderr the parser receives
stdout. -/
theorem probe_failure_iff_stderr_witness :
    probeContinuation "ping: boom" "" srvA = Except.error "ping: boom" ∧
    probeContinuation "" "out" srvA = Except.ok (parsePing "out" srvA) :=
  ⟨(probe_failure_iff_stderr "ping: boom" "" srvA).2.1 (by decide),
   (probe_failure_iff_stderr "" "out" srvA).2.2 rfl⟩

/-- **C1 counterexample.** Over the two selected relays "a" and "b" with
behaviour `exF` (relay "a" yields diagnostic text, relay "b" a valid ping
summary), the aggregation does not produce two classified outcomes: the
whole `Promise.all` rejects with relay "a"'s diagnostic, even though relay
"b"'s probe settles successfully with a parseable measurement, whose result
is therefore lost. -/
theorem promiseAll_fail_fast_counterexample :
    runProbes exF [srvA, srvB] = Except.error "ping: boom" ∧
    probeContinuation (exF srvB).1 (exF srvB).2 srvB = Except.ok (some measB) :=
  ⟨rfl, rfl⟩

/-- **C1 amended.** The run returns one outcome per selected relay only in
the all-stderr-empty case (a failed parse yields a null outcome, not a
recorded Failure); any probe with non-empty diagnostic text rejects the
entire aggregation, discarding every sibling result. -/
theorem scheduler_amended_settle (f : ServerDataJSON → String × String)
    (sel : List ServerDataJSON) :
    ((∀ s ∈ sel, (f s).1 = "") →
      runProbes f sel = Except.ok (sel.map (fun s => parsePing (f s).2 s)) ∧
      (sel.map (fun s => parsePing (f s).2 s)).length = sel.length) ∧
    (∀ s ∈ sel, (f s).1 ≠ "" → ∃ e, runProbes f sel = Except.error e) := by
  constructor
  · intro h
    exact ⟨runProbes_all_settled f sel h, by simp⟩
  · intro s hs hf
    exact runProbes_rejects f sel s hs hf

/-- Witness for C1 (amended): with the all-good behaviour `exG` the run
resolves with one outcome per relay; with `exF` it rejects. -/
theorem scheduler_amended_settle_witness :
    (runProbes exG [srvA, srvB]
      = Except.ok ([srvA, srvB].map (fun s => parsePing (exG s).2 s))) ∧
    (∃ e, runProbes exF [srvA, srvB] = Except.error e) :=
  ⟨((scheduler_amended_settle exG [srvA, srvB]).1 (fun s _ => rfl)).1,
   (scheduler_amended_settle exF [srvA, srvB]).2 srvA (List.mem_cons_self _ _) (by decide)⟩

/-- **C5 counterexample.** With one matching relay whose probe emits
diagnostic text, every probe of the run has failed — yet the program does
not reach the "No servers found" report state: the `Promise.all` rejection
propagates as an uncaught error. -/
theorem report_throws_counterexample :
    selectRelays cAll [srvA] = [srvA] ∧
    runPipeline cAll 5 [srvA] exF = Except.error "ping: boom" :=
  ⟨rfl, rfl⟩

/-- **C5 amended.** The "No servers found" error-level report is reached
without an exception when no relay matches, or when every probe settles with
empty stderr but none parses; when every probe settles with empty stderr and
the ranked list is non-empty the program reports it together with its first
hostname; but any probe with non-empty stderr makes the whole run abort with
an error instead. -/
theorem report_states_amended (c : Criteria) (topN : Int)
    (catalog : List ServerDataJSON) (f : ServerDataJSON → String × String) :
    (selectRelays c catalog = [] →
      runPipeline c topN catalog f = Except.ok ReportState.noServers) ∧
    ((∀ s ∈ selectRelays c catalog, (f s).1 = "" ∧ parsePing (f s).2 s = none) →
      runPipeline c topN catalog f = Except.ok ReportState.noServers) ∧
    ((∀ s ∈ selectRelays c catalog, (f s).1 = "") →
      ∀ (m : ServerPingData) (l : List ServerPingData),
        rank (((selectRelays c catalog).map (fun s => parsePing (f s).2 s)).filterMap id)
            topN = m :: l →
          runPipeline c topN catalog f
            = Except.ok (ReportState.report (m :: l) m.hostname)) ∧
    (∀ s ∈ selectRelays c catalog, (f s).1 ≠ "" →
      ∃ e, runPipeline c topN catalog f = Except.error e) := by
  refine ⟨?_, ?_, ?_, ?_⟩
  · intro hsel
    rw [runPipeline, hsel]
    have h0 : runProbes f [] = Except.ok [] := rfl
    rw [h0]
    simp [Except.map, rank_nil]
  · intro h
    have hok := runProbes_all_settled f (selectRelays c catalog) (fun s hs => (h s hs).1)
    rw [runPipeline, hok]
    have hnil : ((selectRelays c catalog).map
        (fun s => parsePing (f s).2 s)).filterMap id = [] := by
      rw [List.filterMap_map, Function.id_comp]
      exact List.filterMap_eq_nil_iff.mpr (fun s hs => (h s hs).2)
    simp [Except.map, hnil, rank_nil]
  · intro h m l hrank
    have hok := runProbes_all_settled f (selectRelays c catalog) h
    rw [runPipeline, hok]
    rw [List.filterMap_map, Function.id_comp] at hrank
    simp [Except.map, hrank]
  · intro s hs hf
    obtain ⟨e, he⟩ := runProbes_rejects f (selectRelays c catalog) s hs hf
    refine ⟨e, ?_⟩
    rw [runPipeline, he]
    rfl

/-- Witness for C5 (amended): an empty selection reports "No servers found";
a diagnostic-emitting probe aborts the run; an all-good run reports the
ranked list and the top hostname. -/
theorem report_states_amended_witness :
    runPipeline cAll 5 ([] : List ServerDataJSON) exF = Except.ok ReportState.noServers ∧
    (∃ e, runPipeline cAll 5 [srvA] exF = Except.error e) ∧
    runPipeline cAll 5 [srvB] exG = Except.ok (ReportState.report [measB] "b") :=
  ⟨(report_states_amended cAll 5 [] exF).1 rfl,
   (report_states_amended cAll 5 [srvA] exF).2.2.2 srvA
     (by
       have h : selectRelays cAll [srvA] = [srvA] := rfl
       rw [h]
       exact List.mem_singleton.mpr rfl)
     (by decide),
   (report_states_amended cAll 5 [srvB] exG).2.2.1 (fun s _ => rfl) measB [] rfl⟩

/-- **C6.** Every Measurement in the final report has non-negative average
latency and arises from a successful parse of some selected relay's probe
output: an unparseable output yields a null outcome that is filtered away
and never becomes a 0 ms measurement. -/
theorem measurements_nonneg_and_parsed (c : Criteria) (topN : Int)
    (catalog : List ServerDataJSON) (f : ServerDataJSON → String × String)
    (l : List ServerPingData) (hn : String)
    (h : runPipeline c topN catalog f = Except.ok (ReportState.report l hn)) :
    ∀ m ∈ l, 0 ≤ m.avg ∧ ∃ s ∈ selectRelays c catalog, parsePing (f s).2 s = some m := by
  rw [runPipeline] at h
  cases hr : runProbes f (selectRelays c catalog) with
  | error e =>
    rw [hr] at h
    exact absurd h (by simp [Except.map])
  | ok outs =>
    rw [hr] at h
    simp only [Except.map] at h
    rw [Except.ok.injEq] at h
    cases ht : rank (outs.filterMap id) topN with
    | nil =>
      rw [ht] at h
      exact absurd h (by simp)
    | cons t rest =>
      rw [ht] at h
      have hl : l = t :: rest := by
        injection h with h1 h2
        exact h1.symm
      subst hl
      intro m hm
      rw [← ht] at hm
      have hmem : m ∈ outs.filterMap id := mem_rank hm
      obtain ⟨o, ho, hom⟩ := List.mem_filterMap.mp hmem
      simp only [id] at hom
      subst hom
      rw [runProbes] at hr
      have hok := promiseAll_ok_mem _ outs hr _ ho
      obtain ⟨s, hs, hmap⟩ := List.mem_map.mp hok
      by_cases hfs : (f s).1 = ""
      · rw [probeContinuation, if_neg (not_not_intro hfs)] at hmap
        rw [Except.ok.injEq] at hmap
        exact ⟨parsePing_avg_nonneg (f s).2 s m hmap, s, hs, hmap⟩
      · rw [probeContinuation, if_pos hfs] at hmap
        exact absurd hmap (by simp)

/-- Witness for C6: the one reported measurement of an all-good single-relay
run has non-negative latency and is the parse of that relay's stdout. -/
theorem measurements_nonneg_and_parsed_witness :
    0 ≤ measB.avg ∧ ∃ s ∈ selectRelays cAll [srvB], parsePing (exG s).2 s = some measB :=
  measurements_nonneg_and_parsed cAll 5 [srvB] exG [measB] "b" rfl measB
    (List.mem_singleton.mpr rfl)
